import Mathlib

/-!
# Verification of the clipboard-manager history store

Shallow embedding of the core of `src/clipboard_manager.py`:
the `ClipboardItem` class (MD5-of-`str(content)` fingerprint, content,
type tag, timestamp), its `to_dict`/`from_dict` codec, and the
`ClipboardManager` store operations `add_item`, `clear_history`,
`restore_item`, `paste_last_item`, `load_config`, `save_config`.

Python machine-level details are embedded explicitly:
* bytes are `List Nat` (each element a byte value `< 256`);
* Python `str` is Lean `String`; `str.encode()` is UTF-8 encoding;
* `str(bytes)` is the CPython `repr` of a bytes object;
* `hashlib.md5(...).hexdigest()` is a full MD5 implementation;
* `base64.b64encode/b64decode` are implemented over byte lists;
* list slicing `xs[:n]` and indexing `xs[i]` follow Python semantics
  (negative indices, clamping, `IndexError`);
* raising code is modelled with `Option`/`Except`, and the file-system
  side of `save_config` with an explicit writability flag.
-/

set_option maxRecDepth 100000

/-- Reduce modulo `2^32`, the wrap-around of 32-bit arithmetic in MD5. -/
def u32 (n : Nat) : Nat := n % 4294967296

/-- 32-bit left rotation (argument assumed `< 2^32`). -/
def rotl32 (x s : Nat) : Nat := u32 (x <<< s) ||| (x >>> (32 - s))

/-- The 64 MD5 round constants `floor(2^32 * |sin(i+1)|)`. -/
def md5K : List Nat :=
  [3614090360, 3905402710, 606105819, 3250441966, 4118548399, 1200080426,
   2821735955, 4249261313, 1770035416, 2336552879, 4294925233, 2304563134,
   1804603682, 4254626195, 2792965006, 1236535329, 4129170786, 3225465664,
   643717713, 3921069994, 3593408605, 38016083, 3634488961, 3889429448,
   568446438, 3275163606, 4107603335, 1163531501, 2850285829, 4243563512,
   1735328473, 2368359562, 4294588738, 2272392833, 1839030562, 4259657740,
   2763975236, 1272893353, 4139469664, 3200236656, 681279174, 3936430074,
   3572445317, 76029189, 3654602809, 3873151461, 530742520, 3299628645,
   4096336452, 1126891415, 2878612391, 4237533241, 1700485571, 2399980690,
   4293915773, 2240044497, 1873313359, 4264355552, 2734768916, 1309151649,
   4149444226, 3174756917, 718787259, 3951481745]

/-- The 64 MD5 per-round left-rotation amounts. -/
def md5S : List Nat :=
  [7, 12, 17, 22, 7, 12, 17, 22, 7, 12, 17, 22, 7, 12, 17, 22,
   5, 9, 14, 20, 5, 9, 14, 20, 5, 9, 14, 20, 5, 9, 14, 20,
   4, 11, 16, 23, 4, 11, 16, 23, 4, 11, 16, 23, 4, 11, 16, 23,
   6, 10, 15, 21, 6, 10, 15, 21, 6, 10, 15, 21, 6, 10, 15, 21]

/-- MD5 nonlinear round function, selected by the round index. -/
def md5F (i b c d : Nat) : Nat :=
  if i < 16 then (b &&& c) ||| ((4294967295 ^^^ b) &&& d)
  else if i < 32 then (d &&& b) ||| ((4294967295 ^^^ d) &&& c)
  else if i < 48 then b ^^^ c ^^^ d
  else c ^^^ (b ||| (4294967295 ^^^ d))

/-- MD5 message-word index schedule. -/
def md5G (i : Nat) : Nat :=
  if i < 16 then i
  else if i < 32 then (5 * i + 1) % 16
  else if i < 48 then (3 * i + 5) % 16
  else (7 * i) % 16

/-- 64-bit little-endian byte rendering of a message bit length. -/
def le64 (n : Nat) : List Nat :=
  [n % 256, n / 256 % 256, n / 65536 % 256, n / 16777216 % 256,
   n / 4294967296 % 256, n / 1099511627776 % 256,
   n / 281474976710656 % 256, n / 72057594037927936 % 256]

/-- 32-bit little-endian byte rendering of a state word. -/
def le32 (n : Nat) : List Nat :=
  [n % 256, n / 256 % 256, n / 65536 % 256, n / 16777216 % 256]

/-- MD5 padding: append `0x80`, zeros to 56 mod 64, then the bit length. -/
def md5pad (msg : List Nat) : List Nat :=
  msg ++ 128 :: List.replicate ((119 - msg.length % 64) % 64) 0
      ++ le64 (8 * msg.length)

/-- Little-endian 32-bit word `g` of a 64-byte block. -/
def md5word (blk : List Nat) (g : Nat) : Nat :=
  blk.getD (4 * g) 0 + 256 * blk.getD (4 * g + 1) 0
    + 65536 * blk.getD (4 * g + 2) 0 + 16777216 * blk.getD (4 * g + 3) 0

/-- One MD5 round on the state `(a, b, c, d)`. -/
def md5step (blk : List Nat) (st : Nat × Nat × Nat × Nat) (i : Nat) :
    Nat × Nat × Nat × Nat :=
  let (a, b, c, d) := st
  let t := u32 (md5F i b c d + a + md5K.getD i 0 + md5word blk (md5G i))
  (d, u32 (b + rotl32 t (md5S.getD i 0)), b, c)

/-- Process one 64-byte block: 64 rounds, then add into the state. -/
def md5block (st : Nat × Nat × Nat × Nat) (blk : List Nat) :
    Nat × Nat × Nat × Nat :=
  let (a, b, c, d) := (List.range 64).foldl (md5step blk) st
  (u32 (st.1 + a), u32 (st.2.1 + b), u32 (st.2.2.1 + c), u32 (st.2.2.2 + d))

/-- Process `n` consecutive 64-byte blocks of a padded message
(structural recursion on the block count, so the kernel can run it). -/
def md5loop : Nat → (Nat × Nat × Nat × Nat) → List Nat → Nat × Nat × Nat × Nat
  | 0, st, _ => st
  | n + 1, st, l => md5loop n (md5block st (l.take 64)) (l.drop 64)

/-- MD5 digest (16 bytes) of a byte message; the padded message length
is an exact multiple of 64, covered by `length / 64` blocks. -/
def md5bytes (msg : List Nat) : List Nat :=
  let p := md5pad msg
  let (a, b, c, d) := md5loop (p.length / 64)
    (1732584193, 4023233417, 2562383102, 271733878) p
  le32 a ++ le32 b ++ le32 c ++ le32 d

/-- Character code of a lowercase hexadecimal digit. -/
def hexCode (n : Nat) : Nat := if n < 10 then 48 + n else 87 + n

/-- `hashlib.md5(bs).hexdigest()`: lowercase hex string of the digest. -/
def md5hex (msg : List Nat) : String :=
  String.mk ((md5bytes msg).foldr
    (fun b acc => Char.ofNat (hexCode (b / 16)) :: Char.ofNat (hexCode (b % 16)) :: acc) [])

/-- UTF-8 encoding of one Unicode code point. -/
def utf8Char (c : Nat) : List Nat :=
  if c < 128 then [c]
  else if c < 2048 then [192 + c / 64, 128 + c % 64]
  else if c < 65536 then [224 + c / 4096, 128 + c / 64 % 64, 128 + c % 64]
  else [240 + c / 262144, 128 + c / 4096 % 64, 128 + c / 64 % 64, 128 + c % 64]

/-- Python `s.encode()`: UTF-8 bytes of a `str`. -/
def pyEncode (s : String) : List Nat :=
  s.data.foldr (fun ch acc => utf8Char ch.toNat ++ acc) []

/-- A Python runtime value held in `ClipboardItem.content`: either a
`str` (text payloads, and raw decoded records) or a `bytes` object
(image payloads). -/
inductive PyVal where
  | str (s : String)
  | bytes (b : List Nat)
deriving DecidableEq, Repr

/-- Escape of one byte inside the CPython `repr` of a bytes object. -/
def reprEscape (quote c : Nat) : List Nat :=
  if c = 92 ∨ c = quote then [92, c]
  else if c = 9 then [92, 116]
  else if c = 10 then [92, 110]
  else if c = 13 then [92, 114]
  else if c < 32 ∨ 127 ≤ c then [92, 120, hexCode (c / 16), hexCode (c % 16)]
  else [c]

/-- Character codes of the CPython `repr` of a bytes object:
`b` plus a quote, the escaped bytes, and the closing quote; the single
quote is used unless the bytes contain `0x27` but no `0x22`. -/
def bytesReprCodes (b : List Nat) : List Nat :=
  let quote := if b.contains 39 ∧ ¬ b.contains 34 then 34 else 39
  98 :: quote :: (b.foldr (fun c acc => reprEscape quote c ++ acc) [] ++ [quote])

/-- Python `str(content)` as `ClipboardItem.__init__` applies it:
the identity on a `str`, the `repr` rendering on a `bytes` object. -/
def pyStrOf : PyVal → String
  | .str s => s
  | .bytes b => String.mk ((bytesReprCodes b).map Char.ofNat)

/-- Base64 alphabet character code of a 6-bit value. -/
def b64char (v : Nat) : Nat :=
  if v < 26 then 65 + v
  else if v < 52 then 71 + v
  else if v < 62 then v - 4
  else if v = 62 then 43 else 47

/-- Inverse of the base64 alphabet; `none` off the alphabet. -/
def b64val (c : Nat) : Option Nat :=
  if 65 ≤ c ∧ c ≤ 90 then some (c - 65)
  else if 97 ≤ c ∧ c ≤ 122 then some (c - 97 + 26)
  else if 48 ≤ c ∧ c ≤ 57 then some (c - 48 + 52)
  else if c = 43 then some 62
  else if c = 47 then some 63
  else none

/-- Base64 encoding of a byte list as character codes, with `=` padding. -/
def b64encodeChars : List Nat → List Nat
  | [] => []
  | [a] => [b64char (a / 4), b64char (a % 4 * 16), 61, 61]
  | [a, b] => [b64char (a / 4), b64char (a % 4 * 16 + b / 16), b64char (b % 16 * 4), 61]
  | a :: b :: c :: rest =>
      b64char (a / 4) :: b64char (a % 4 * 16 + b / 16)
        :: b64char (b % 16 * 4 + c / 64) :: b64char (c % 64) :: b64encodeChars rest

/-- `base64.b64encode(b).decode()`: the base64 text of a byte list. -/
def b64encodeStr (b : List Nat) : String :=
  String.mk ((b64encodeChars b).map Char.ofNat)

/-- Base64 decoding of alphabet-filtered character codes in 4-char
groups; `none` on a malformed group or misplaced padding (the
`binascii.Error` raised by `base64.b64decode`). -/
def b64decodeGroups : List Nat → Option (List Nat)
  | [] => some []
  | c1 :: c2 :: c3 :: c4 :: rest =>
      if c4 = 61 then
        if rest = [] then
          if c3 = 61 then
            match b64val c1, b64val c2 with
            | some v1, some v2 => some [v1 * 4 + v2 / 16]
            | _, _ => none
          else
            match b64val c1, b64val c2, b64val c3 with
            | some v1, some v2, some v3 => some [v1 * 4 + v2 / 16, v2 % 16 * 16 + v3 / 4]
            | _, _, _ => none
        else none
      else if c3 = 61 then none
      else
        match b64val c1, b64val c2, b64val c3, b64val c4, b64decodeGroups rest with
        | some v1, some v2, some v3, some v4, some bs =>
            some ((v1 * 4 + v2 / 16) :: (v2 % 16 * 16 + v3 / 4) :: (v3 % 4 * 64 + v4) :: bs)
        | _, _, _, _, _ => none
  | _ => none

/-- `base64.b64decode(v)` on a Python value: a `str` argument must be
ASCII; characters outside the alphabet are discarded (non-validating
mode), then 4-character groups are decoded. -/
def b64decodePy (v : PyVal) : Option (List Nat) :=
  match v with
  | .str s =>
      if s.data.all (fun ch => ch.toNat < 128) then
        b64decodeGroups ((s.data.map Char.toNat).filter
          (fun c => (b64val c).isSome || c == 61))
      else none
  | .bytes b =>
      b64decodeGroups (b.filter (fun c => (b64val c).isSome || c == 61))

/-- A list comprehension whose element expression may raise, as in
`[f(x) for x in xs]` over fallible `f`: the whole construction fails
as soon as one element does. -/
def mapOption (f : α → Option β) : List α → Option (List β)
  | [] => some []
  | a :: t =>
      match f a, mapOption f t with
      | some b, some bs => some (b :: bs)
      | _, _ => none

/-- Python list slicing `xs[:n]` for an arbitrary integer bound:
nonnegative bounds clamp to the length, negative bounds count from the
end, clamping at zero. -/
def pythonTake (n : Int) (xs : List α) : List α :=
  if 0 ≤ n then xs.take n.toNat else xs.take ((xs.length : Int) + n).toNat

/-- A Python exception escaping the embedded code. -/
inductive PyErr where
  | indexError
  | osError
  | typeError
  | valueError
deriving DecidableEq, Repr

/-- Python list indexing `xs[i]`: negative indices count from the end,
anything out of range raises `IndexError`. -/
def pythonListGet (xs : List α) (i : Int) : Except PyErr α :=
  let j : Int := if 0 ≤ i then i else (xs.length : Int) + i
  if 0 ≤ j ∧ j < (xs.length : Int) then
    match xs.get? j.toNat with
    | some x => .ok x
    | none => .error .indexError
  else .error .indexError

/-- The `ClipboardItem` class: fingerprint `id`, payload `content`,
type tag, and capture timestamp. The Python timestamp is
`os.path.getmtime(os.path.realpath(__file__))`, an environment value;
it is threaded through as the explicit parameter `mtime` wherever the
constructor runs, and modelled as an integer (no operation inspects it). -/
structure ClipboardItem where
  id : String
  content : PyVal
  type : String
  timestamp : Int
deriving DecidableEq, Repr

/-- `ClipboardItem.__init__`: the fingerprint is the MD5 hex digest of
`str(content).encode()`; content and type are stored as given. -/
def ClipboardItem.init (content : PyVal) (content_type : String) (mtime : Int) :
    ClipboardItem :=
  { id := md5hex (pyEncode (pyStrOf content)),
    content := content,
    type := content_type,
    timestamp := mtime }

/-- One record of the persisted document: the dict produced by
`to_dict` / consumed by `from_dict`. `content` is a `PyVal` because a
mistyped item would put a raw bytes object in the dict; `timestamp` is
optional because `from_dict` reads it with `data.get`. -/
structure EntryRecord where
  id : String
  content : PyVal
  type : String
  timestamp : Option Int
deriving DecidableEq, Repr

/-- The persisted document: `history` list plus `max_items`, read back
with `config.get('max_items', 10)`, hence optional here. -/
structure Document where
  history : List EntryRecord
  max_items : Option Int
deriving DecidableEq, Repr

/-- `ClipboardItem.to_dict`: an image item base64-encodes its content
(`none` models the `TypeError` from `base64.b64encode` on a non-bytes
content); any other type stores the content verbatim. -/
def ClipboardItem.to_dict (it : ClipboardItem) : Option EntryRecord :=
  if it.type = "image" then
    match it.content with
    | .bytes b => some { id := it.id, content := .str (b64encodeStr b),
                         type := it.type, timestamp := some it.timestamp }
    | .str _ => none
  else
    some { id := it.id, content := it.content,
           type := it.type, timestamp := some it.timestamp }

/-- `ClipboardItem.from_dict`: rebuilds the item from the raw record
content and type, then overwrites `id` with the stored one verbatim and
`timestamp` with the stored one when present; an image record has its
content base64-decoded (`none` models the uncaught decode exception). -/
def ClipboardItem.from_dict (mtime : Int) (d : EntryRecord) : Option ClipboardItem :=
  let base := ClipboardItem.init d.content d.type mtime
  let it := { base with id := d.id, timestamp := d.timestamp.getD base.timestamp }
  if it.type = "image" then
    match b64decodePy it.content with
    | some b => some { it with content := .bytes b }
    | none => none
  else some it

/-- The mutable state of `ClipboardManager` relevant to the store:
the `history` list (most recent first) and the `max_items` bound. -/
structure ManagerState where
  history : List ClipboardItem
  max_items : Int
deriving DecidableEq, Repr

/-- Outcome of `add_item`: the early return on a fingerprint hit
(`Duplicate`) or the fall-through that inserted the fresh item. -/
inductive InsertOutcome where
  | Inserted (it : ClipboardItem)
  | Duplicate
deriving DecidableEq, Repr

/-- `ClipboardManager.add_item` (in-memory part): build the item,
return unchanged on any existing equal `id`, otherwise insert at
index 0 and slice back to `max_items` when the length exceeds it. -/
def add_item (mtime : Int) (st : ManagerState) (content : PyVal)
    (content_type : String) : ManagerState × InsertOutcome :=
  let item := ClipboardItem.init content content_type mtime
  if st.history.any (fun e => e.id == item.id) then (st, .Duplicate)
  else
    let h1 := item :: st.history
    let h2 := if (h1.length : Int) > st.max_items then pythonTake st.max_items h1 else h1
    ({ history := h2, max_items := st.max_items }, .Inserted item)

/-- `ClipboardManager.clear_history` (in-memory part): empty the list. -/
def clear_history (st : ManagerState) : ManagerState :=
  { st with history := [] }

/-- `ClipboardManager.restore_item` reduced to its index semantics:
`self.history[index]` with Python indexing (raises `IndexError` out of
range); the copy to the clipboard sink is external and the store is
not touched. -/
def restore_item (st : ManagerState) (index : Int) : Except PyErr ClipboardItem :=
  pythonListGet st.history index

/-- `ClipboardManager.paste_last_item` reduced to its selection
semantics: `history[0]` when the list is non-empty, a silent no-op
(`none`) on an empty store; the clipboard write is external. -/
def paste_last_item (st : ManagerState) : Option ClipboardItem :=
  st.history.head?

/-- `ClipboardManager.load_config`: a missing or unparseable file
(`none` document) only resets `history` to `[]`, keeping `max_items`;
a parsed document replaces `history` with the decoded records — any
record whose decode raises propagates (`.error`, uncaught by the
`except` clause) — and sets `max_items` with default 10. No validation
and no truncation happen here. -/
def load_config (mtime : Int) (doc : Option Document) (st : ManagerState) :
    Except PyErr ManagerState :=
  match doc with
  | none => .ok { st with history := [] }
  | some d =>
      match mapOption (ClipboardItem.from_dict mtime) d.history with
      | some items => .ok { history := items, max_items := d.max_items.getD 10 }
      | none => .error .valueError

/-- `ClipboardManager.save_config` (document construction): the config
dict written to disk; `none` models the `TypeError` raised while
building an image record from non-bytes content. -/
def save_config (st : ManagerState) : Option Document :=
  match mapOption ClipboardItem.to_dict st.history with
  | some records => some { history := records, max_items := some st.max_items }
  | none => none

/-- A document `json.dump` can serialize: no raw bytes content in any
record (a bytes value would raise `TypeError`). -/
def jsonSerializable (d : Document) : Bool :=
  d.history.all (fun r => match r.content with | .str _ => true | .bytes _ => false)

/-- `save_config` with the file system made explicit: opening an
unwritable path raises `OSError` before anything is written; then the
document is built and `json.dump` runs. No exception is caught. -/
def save_config_run (writable : Bool) (st : ManagerState) : Except PyErr Document :=
  if writable then
    match save_config st with
    | some d => if jsonSerializable d then .ok d else .error .typeError
    | none => .error .typeError
  else .error .osError

/-- `add_item` with the persistence write: on the duplicate early
return no write happens; on an insert the already-mutated state stays
in memory and `save_config` runs, whose exception (if any) escapes. -/
def add_item_run (mtime : Int) (writable : Bool) (st : ManagerState)
    (content : PyVal) (content_type : String) :
    ManagerState × InsertOutcome × Option PyErr :=
  let r := add_item mtime st content content_type
  match r.2 with
  | .Duplicate => (r.1, r.2, none)
  | .Inserted _ =>
      (r.1, r.2,
        match save_config_run writable r.1 with
        | .ok _ => none
        | .error e => some e)

/-- `clear_history` with the persistence write, as in `add_item_run`. -/
def clear_history_run (writable : Bool) (st : ManagerState) :
    ManagerState × Option PyErr :=
  let st1 := clear_history st
  (st1,
    match save_config_run writable st1 with
    | .ok _ => none
    | .error e => some e)

/-- Fold `add_item` over a list of `(content, type)` payloads,
keeping only the state: a polling session inserting them in order. -/
def add_all (mtime : Int) (st : ManagerState) (ps : List (PyVal × String)) :
    ManagerState :=
  ps.foldl (fun s p => (add_item mtime s p.1 p.2).1) st

/-! ## Base64 round-trip lemmas -/

theorem b64char_spec : ∀ v : Nat, v < 64 →
    b64val (b64char v) = some v ∧ b64char v < 128 ∧ b64char v ≠ 61 := by
  decide

theorem char_toNat_ofNat (c : Nat) (h : c < 128) : (Char.ofNat c).toNat = c := by
  have hv : c.isValidChar := Or.inl (by omega)
  simp [Char.ofNat, hv, Char.toNat, Char.ofNatAux]
  rfl


theorem b64encodeChars_bound (b : List Nat) (hb : ∀ x ∈ b, x < 256) :
    ∀ c ∈ b64encodeChars b, c < 128 ∧ ((b64val c).isSome ∨ c = 61) := by
  induction b using b64encodeChars.induct with
  | case1 => intro c hc; simp [b64encodeChars] at hc
  | case2 a =>
      have ha : a < 256 := hb a (by simp)
      intro c hc
      simp only [b64encodeChars, List.mem_cons, List.not_mem_nil, or_false] at hc
      rcases hc with rfl | rfl | rfl | rfl
      · obtain ⟨h1, h2, _⟩ := b64char_spec (a / 4) (by omega)
        exact ⟨h2, Or.inl (by rw [h1]; rfl)⟩
      · obtain ⟨h1, h2, _⟩ := b64char_spec (a % 4 * 16) (by omega)
        exact ⟨h2, Or.inl (by rw [h1]; rfl)⟩
      · exact ⟨by omega, Or.inr rfl⟩
      · exact ⟨by omega, Or.inr rfl⟩
  | case3 a b =>
      have ha : a < 256 := hb a (by simp)
      have hbb : b < 256 := hb b (by simp)
      intro c hc
      simp only [b64encodeChars, List.mem_cons, List.not_mem_nil, or_false] at hc
      rcases hc with rfl | rfl | rfl | rfl
      · obtain ⟨h1, h2, _⟩ := b64char_spec (a / 4) (by omega)
        exact ⟨h2, Or.inl (by rw [h1]; rfl)⟩
      · obtain ⟨h1, h2, _⟩ := b64char_spec (a % 4 * 16 + b / 16) (by omega)
        exact ⟨h2, Or.inl (by rw [h1]; rfl)⟩
      · obtain ⟨h1, h2, _⟩ := b64char_spec (b % 16 * 4) (by omega)
        exact ⟨h2, Or.inl (by rw [h1]; rfl)⟩
      · exact ⟨by omega, Or.inr rfl⟩
  | case4 a b c rest ih =>
      have ha : a < 256 := hb a (by simp)
      have hbb : b < 256 := hb b (by simp)
      have hcc : c < 256 := hb c (by simp)
      have hrest : ∀ x ∈ rest, x < 256 := fun x hx => hb x (by simp [hx])
      intro d hd
      simp only [b64encodeChars, List.mem_cons] at hd
      rcases hd with rfl | rfl | rfl | rfl | h
      · obtain ⟨h1, h2, _⟩ := b64char_spec (a / 4) (by omega)
        exact ⟨h2, Or.inl (by rw [h1]; rfl)⟩
      · obtain ⟨h1, h2, _⟩ := b64char_spec (a % 4 * 16 + b / 16) (by omega)
        exact ⟨h2, Or.inl (by rw [h1]; rfl)⟩
      · obtain ⟨h1, h2, _⟩ := b64char_spec (b % 16 * 4 + c / 64) (by omega)
        exact ⟨h2, Or.inl (by rw [h1]; rfl)⟩
      · obtain ⟨h1, h2, _⟩ := b64char_spec (c % 64) (by omega)
        exact ⟨h2, Or.inl (by rw [h1]; rfl)⟩
      · exact ih hrest d h

theorem b64decodeGroups_encode (b : List Nat) (hb : ∀ x ∈ b, x < 256) :
    b64decodeGroups (b64encodeChars b) = some b := by
  induction b using b64encodeChars.induct with
  | case1 => rfl
  | case2 a =>
      have ha : a < 256 := hb a (by simp)
      obtain ⟨h1, _, _⟩ := b64char_spec (a / 4) (by omega)
      obtain ⟨h2, _, _⟩ := b64char_spec (a % 4 * 16) (by omega)
      simp only [b64encodeChars, b64decodeGroups, h1, h2, reduceIte]
      simp only [Option.some.injEq, List.cons.injEq, and_true]
      omega
  | case3 a b =>
      have ha : a < 256 := hb a (by simp)
      have hbb : b < 256 := hb b (by simp)
      obtain ⟨h1, _, _⟩ := b64char_spec (a / 4) (by omega)
      obtain ⟨h2, _, _⟩ := b64char_spec (a % 4 * 16 + b / 16) (by omega)
      obtain ⟨h3, _, hne3⟩ := b64char_spec (b % 16 * 4) (by omega)
      simp only [b64encodeChars, b64decodeGroups, h1, h2, h3, if_neg hne3, reduceIte]
      simp only [Option.some.injEq, List.cons.injEq, and_true]
      omega
  | case4 a b c rest ih =>
      have ha : a < 256 := hb a (by simp)
      have hbb : b < 256 := hb b (by simp)
      have hcc : c < 256 := hb c (by simp)
      have hrest : ∀ x ∈ rest, x < 256 := fun x hx => hb x (by simp [hx])
      obtain ⟨h1, _, _⟩ := b64char_spec (a / 4) (by omega)
      obtain ⟨h2, _, _⟩ := b64char_spec (a % 4 * 16 + b / 16) (by omega)
      obtain ⟨h3, _, hne3⟩ := b64char_spec (b % 16 * 4 + c / 64) (by omega)
      obtain ⟨h4, _, hne4⟩ := b64char_spec (c % 64) (by omega)
      simp only [b64encodeChars, b64decodeGroups, if_neg hne4, if_neg hne3,
        h1, h2, h3, h4, ih hrest]
      simp only [Option.some.injEq, List.cons.injEq, and_true, eq_self_iff_true]
      omega

/-- `base64.b64decode` exactly inverts `base64.b64encode` on genuine
byte sequences, including the ASCII check and alphabet filtering that
the decoder applies to a `str` argument. -/
theorem b64_roundtrip (b : List Nat) (hb : ∀ x ∈ b, x < 256) :
    b64decodePy (.str (b64encodeStr b)) = some b := by
  have hbound := b64encodeChars_bound b hb
  have hdata : (b64encodeStr b).data = (b64encodeChars b).map Char.ofNat := rfl
  have hascii : (b64encodeStr b).data.all (fun ch => ch.toNat < 128) = true := by
    rw [hdata, List.all_eq_true]
    intro ch hch
    rw [List.mem_map] at hch
    obtain ⟨c, hc, hch⟩ := hch
    have hlt := (hbound c hc).1
    simp [← hch, char_toNat_ofNat c hlt, hlt]
  have hback : (b64encodeStr b).data.map Char.toNat = b64encodeChars b := by
    rw [hdata, List.map_map]
    have hcg : ∀ c ∈ b64encodeChars b, (Char.toNat ∘ Char.ofNat) c = id c := by
      intro c hc
      exact char_toNat_ofNat c (hbound c hc).1
    rw [List.map_congr_left hcg, List.map_id]
  have hfilter : (b64encodeChars b).filter (fun c => (b64val c).isSome || c == 61)
      = b64encodeChars b := by
    rw [List.filter_eq_self]
    intro c hc
    rcases (hbound c hc).2 with h | h
    · simp [h]
    · simp [h]
  rw [b64decodePy, hascii]
  simp only [if_true, hback, hfilter]
  exact b64decodeGroups_encode b hb

/-! ## Codec lemmas -/

/-- Well-typedness of an item as the constructing code paths produce
it: an image item holds genuine bytes, anything else holds a `str`. -/
def wf (it : ClipboardItem) : Prop :=
  (it.type = "image" → ∃ b, it.content = .bytes b ∧ ∀ x ∈ b, x < 256) ∧
  (it.type ≠ "image" → ∃ s, it.content = .str s)

theorem to_from_dict_roundtrip (mtime : Int) (it : ClipboardItem) (h : wf it) :
    ∃ r, it.to_dict = some r ∧ ClipboardItem.from_dict mtime r = some it := by
  by_cases him : it.type = "image"
  · obtain ⟨b, hc, hbnd⟩ := h.1 him
    refine ⟨⟨it.id, .str (b64encodeStr b), it.type, some it.timestamp⟩, ?_, ?_⟩
    · simp [ClipboardItem.to_dict, him, hc]
    · simp [ClipboardItem.from_dict, ClipboardItem.init, him, b64_roundtrip b hbnd]
      cases it
      simp_all
  · obtain ⟨s, hc⟩ := h.2 him
    refine ⟨⟨it.id, .str s, it.type, some it.timestamp⟩, ?_, ?_⟩
    · simp [ClipboardItem.to_dict, him, hc]
    · simp [ClipboardItem.from_dict, ClipboardItem.init, him, hc]
      cases it
      simp_all

theorem mapOption_to_from (mtime : Int) (l : List ClipboardItem)
    (h : ∀ it ∈ l, wf it) :
    ∃ rs, mapOption ClipboardItem.to_dict l = some rs ∧
      mapOption (ClipboardItem.from_dict mtime) rs = some l := by
  induction l with
  | nil => exact ⟨[], rfl, rfl⟩
  | cons a t ih =>
      obtain ⟨r, hr1, hr2⟩ := to_from_dict_roundtrip mtime a (h a (by simp))
      obtain ⟨rs, hs1, hs2⟩ := ih (fun it hit => h it (by simp [hit]))
      exact ⟨r :: rs, by simp [mapOption, hr1, hs1], by simp [mapOption, hr2, hs2]⟩

theorem mapOption_length (f : α → Option β) (l : List α) (res : List β)
    (h : mapOption f l = some res) : res.length = l.length := by
  induction l generalizing res with
  | nil =>
      simp only [mapOption, Option.some.injEq] at h
      simp [← h]
  | cons a t ih =>
      simp only [mapOption] at h
      cases hf : f a with
      | none => rw [hf] at h; simp at h
      | some b =>
          rw [hf] at h
          cases ht : mapOption f t with
          | none => rw [ht] at h; simp at h
          | some bs =>
              rw [ht] at h
              simp only [Option.some.injEq] at h
              rw [← h]
              simp [ih bs ht]

/-! ## `add_item` characterization -/

theorem any_id_iff (l : List ClipboardItem) (i : String) :
    l.any (fun e => e.id == i) = true ↔ ∃ e ∈ l, e.id = i := by
  simp [List.any_eq_true]

theorem pythonTake_nonneg (n : Int) (hn : 0 ≤ n) (xs : List α) :
    pythonTake n xs = xs.take n.toNat := by
  simp [pythonTake, hn]

theorem add_item_dup (mtime : Int) (st : ManagerState) (content : PyVal)
    (ct : String)
    (h : st.history.any (fun e => e.id == (ClipboardItem.init content ct mtime).id) = true) :
    add_item mtime st content ct = (st, .Duplicate) := by
  simp only [add_item, h, if_true]

theorem add_item_absent (mtime : Int) (st : ManagerState) (content : PyVal)
    (ct : String) (hcap : 0 ≤ st.max_items)
    (h : st.history.any (fun e => e.id == (ClipboardItem.init content ct mtime).id) = false) :
    add_item mtime st content ct
      = (⟨(ClipboardItem.init content ct mtime :: st.history).take st.max_items.toNat,
          st.max_items⟩,
         .Inserted (ClipboardItem.init content ct mtime)) := by
  simp only [add_item, h, Bool.false_eq_true, if_false]
  by_cases hlen :
      ((ClipboardItem.init content ct mtime :: st.history).length : Int) > st.max_items
  · simp only [hlen, if_true, pythonTake_nonneg st.max_items hcap]
  · simp only [hlen, if_false]
    have htk : (ClipboardItem.init content ct mtime :: st.history).take st.max_items.toNat
        = ClipboardItem.init content ct mtime :: st.history := by
      rw [List.take_of_length_le]
      simp only [List.length_cons] at hlen ⊢
      omega
    rw [htk]

/-! ## Claim theorems -/

/-- C8: `clear_history` leaves the entries empty for every state, a
subsequent most-recent lookup finds nothing, and clearing twice gives
the same state as clearing once. -/
theorem clear_history_empties_and_idempotent :
    ∀ st : ManagerState, (clear_history st).history = []
      ∧ paste_last_item (clear_history st) = none
      ∧ clear_history (clear_history st) = clear_history st :=
  fun _ => ⟨rfl, rfl, rfl⟩

/-- C9: `from_dict` copies the stored `id` field into the decoded item
verbatim; it never recomputes or validates the fingerprint against the
content. -/
theorem from_dict_trusts_stored_id :
    ∀ (mtime : Int) (d : EntryRecord) (it : ClipboardItem),
      ClipboardItem.from_dict mtime d = some it → it.id = d.id := by
  intro mtime d it h
  simp only [ClipboardItem.from_dict, ClipboardItem.init] at h
  by_cases him : d.type = "image"
  · rw [if_pos him] at h
    cases hdec : b64decodePy d.content with
    | none => rw [hdec] at h; simp at h
    | some b =>
        rw [hdec] at h
        simp only [Option.some.injEq] at h
        rw [← h]
  · rw [if_neg him] at h
    simp only [Option.some.injEq] at h
    rw [← h]

/-- Witness for C9: a record whose stored id `bogus` is not the
fingerprint of its content still decodes to an item carrying `bogus`. -/
theorem from_dict_trusts_stored_id_witness :
    (ClipboardItem.mk "bogus" (.str "x") "text" 0).id = "bogus"
      ∧ ClipboardItem.from_dict 0 ⟨"bogus", .str "x", "text", some 0⟩
          = some ⟨"bogus", .str "x", "text", 0⟩
      ∧ "bogus" ≠ (ClipboardItem.init (.str "x") "text" 0).id :=
  ⟨from_dict_trusts_stored_id 0 ⟨"bogus", .str "x", "text", some 0⟩
      ⟨"bogus", .str "x", "text", 0⟩ rfl,
   rfl, by decide⟩

/-- C6 counterexample: with the persistence path unwritable, an insert
does raise (`OSError` escapes `add_item` — the code catches nothing),
even though the in-memory insert already happened; the claim said the
operation completes without raising. -/
theorem add_item_raises_on_unwritable_path :
    (add_item_run 0 false ⟨[], 10⟩ (.str "x") "text").2.2 = some .osError
      ∧ (add_item_run 0 false ⟨[], 10⟩ (.str "x") "text").1.history
          = [ClipboardItem.init (.str "x") "text" 0] :=
  ⟨rfl, rfl⟩

/-- C6 amended: the in-memory mutation is applied before the write and
is unaffected by its outcome, the duplicate path writes nothing, and
every mutation attempts the write afresh (so the next mutation on a
writable path succeeds with no error). The write failure itself
propagates as an exception; it is not swallowed. -/
theorem mutation_precedes_write_and_write_retried :
    (∀ (mtime : Int) (w : Bool) (st : ManagerState) (c : PyVal) (t : String),
        (add_item_run mtime w st c t).1 = (add_item mtime st c t).1
          ∧ (add_item_run mtime w st c t).2.1 = (add_item mtime st c t).2)
    ∧ (∀ (w : Bool) (st : ManagerState), (clear_history_run w st).1 = clear_history st)
    ∧ (∀ st : ManagerState, (clear_history_run true st).2 = none) := by
  refine ⟨?_, fun w st => rfl, fun st => rfl⟩
  intro mtime w st c t
  cases h : (add_item mtime st c t).2 with
  | Duplicate => simp [add_item_run, h]
  | Inserted it => simp [add_item_run, h]

/-- C7 counterexample: a lookup on an absent position raises: on the
empty store `restore_item 0` is an `IndexError`, not a `NotFound`
result (the code has no non-raising not-found path at all). -/
theorem restore_item_raises_on_empty :
    restore_item ⟨[], 10⟩ 0 = .error .indexError
      ∧ paste_last_item ⟨[], 10⟩ = none :=
  ⟨rfl, rfl⟩

/-- C7 amended: `restore_item` returns the entry at any in-range index
(including Python-style negative indices, which select from the tail)
without touching the store, but any index outside `[-len, len)` raises
`IndexError` instead of returning `NotFound`; `paste_last_item` on an
empty store is a silent no-op and on a non-empty store selects the
head entry. -/
theorem restore_and_paste_semantics :
    (∀ (st : ManagerState) (i : Int), 0 ≤ i → i < (st.history.length : Int) →
        ∃ it, restore_item st i = .ok it ∧ st.history.get? i.toNat = some it)
    ∧ (∀ (st : ManagerState) (i : Int), (st.history.length : Int) ≤ i →
        restore_item st i = .error .indexError)
    ∧ (∀ (st : ManagerState) (i : Int), i < -(st.history.length : Int) →
        restore_item st i = .error .indexError)
    ∧ (∀ (st : ManagerState) (i : Int), -(st.history.length : Int) ≤ i → i < 0 →
        ∃ it, restore_item st i = .ok it
          ∧ st.history.get? ((st.history.length : Int) + i).toNat = some it)
    ∧ (∀ st : ManagerState, st.history = [] → paste_last_item st = none)
    ∧ (∀ (st : ManagerState) (it : ClipboardItem) (tl : List ClipboardItem),
        st.history = it :: tl → paste_last_item st = some it) := by
  refine ⟨?_, ?_, ?_, ?_, ?_, ?_⟩
  · intro st i h0 hlt
    have htn : i.toNat < st.history.length := by omega
    cases hg : st.history.get? i.toNat with
    | none => rw [List.get?_eq_none] at hg; omega
    | some x =>
        refine ⟨x, ?_, rfl⟩
        simp only [restore_item, pythonListGet, if_pos h0]
        rw [if_pos ⟨h0, hlt⟩, hg]
  · intro st i hge
    have h0 : 0 ≤ i := by omega
    simp only [restore_item, pythonListGet, if_pos h0]
    rw [if_neg (by omega)]
  · intro st i hlow
    have h0 : ¬ 0 ≤ i := by omega
    simp only [restore_item, pythonListGet, if_neg h0]
    rw [if_neg (by omega)]
  · intro st i hge hneg
    have h0 : ¬ 0 ≤ i := by omega
    have htn : ((st.history.length : Int) + i).toNat < st.history.length := by omega
    cases hg : st.history.get? ((st.history.length : Int) + i).toNat with
    | none => rw [List.get?_eq_none] at hg; omega
    | some x =>
        refine ⟨x, ?_, rfl⟩
        simp only [restore_item, pythonListGet, if_neg h0]
        rw [if_pos ⟨by omega, by omega⟩, hg]
  · intro st h
    simp [paste_last_item, h]
  · intro st it tl h
    simp [paste_last_item, h]

/-- Witness for C7: the six behaviors at a one-entry store and the
empty store. -/
theorem restore_and_paste_semantics_witness :
    (∃ it, restore_item ⟨[ClipboardItem.init (.str "r") "text" 0], 10⟩ 0 = .ok it
        ∧ (⟨[ClipboardItem.init (.str "r") "text" 0], 10⟩ : ManagerState).history.get?
            (0 : Int).toNat = some it)
      ∧ restore_item ⟨[ClipboardItem.init (.str "r") "text" 0], 10⟩ 5 = .error .indexError
      ∧ restore_item ⟨[ClipboardItem.init (.str "r") "text" 0], 10⟩ (-2) = .error .indexError
      ∧ (∃ it, restore_item ⟨[ClipboardItem.init (.str "r") "text" 0], 10⟩ (-1) = .ok it
          ∧ (⟨[ClipboardItem.init (.str "r") "text" 0], 10⟩ : ManagerState).history.get?
              ((((⟨[ClipboardItem.init (.str "r") "text" 0], 10⟩ : ManagerState).history.length : Int))
                + -1).toNat = some it)
      ∧ paste_last_item ⟨[], 10⟩ = none
      ∧ paste_last_item ⟨[ClipboardItem.init (.str "r") "text" 0], 10⟩
          = some (ClipboardItem.init (.str "r") "text" 0) :=
  ⟨restore_and_paste_semantics.1 ⟨[ClipboardItem.init (.str "r") "text" 0], 10⟩ 0
      (by decide) (by decide),
   restore_and_paste_semantics.2.1 ⟨[ClipboardItem.init (.str "r") "text" 0], 10⟩ 5
      (by decide),
   restore_and_paste_semantics.2.2.1 ⟨[ClipboardItem.init (.str "r") "text" 0], 10⟩ (-2)
      (by decide),
   restore_and_paste_semantics.2.2.2.1 ⟨[ClipboardItem.init (.str "r") "text" 0], 10⟩ (-1)
      (by decide) (by decide),
   restore_and_paste_semantics.2.2.2.2.1 ⟨[], 10⟩ rfl,
   restore_and_paste_semantics.2.2.2.2.2 ⟨[ClipboardItem.init (.str "r") "text" 0], 10⟩
      (ClipboardItem.init (.str "r") "text" 0) [] rfl⟩

theorem add_item_max (mtime : Int) (st : ManagerState) (c : PyVal) (t : String) :
    (add_item mtime st c t).1.max_items = st.max_items := by
  simp only [add_item]
  split <;> rfl

theorem add_all_max (mtime : Int) (ps : List (PyVal × String)) :
    ∀ st : ManagerState, (add_all mtime st ps).max_items = st.max_items := by
  induction ps with
  | nil => intro st; rfl
  | cons p t ih =>
      intro st
      simp only [add_all, List.foldl_cons]
      exact (ih ((add_item mtime st p.1 p.2).1)).trans (add_item_max mtime st p.1 p.2)

/-- C1 counterexample: a persisted document holding three entries and
`max_items = 2` loads verbatim — `load_config` neither validates nor
truncates — so the state right after startup violates the capacity
bound the claim asserts. -/
theorem loaded_state_exceeds_capacity :
    load_config 0 (some ⟨[⟨"a", .str "p", "text", some 0⟩, ⟨"b", .str "q", "text", some 0⟩,
          ⟨"c", .str "r", "text", some 0⟩], some 2⟩) ⟨[], 10⟩
        = .ok ⟨[⟨"a", .str "p", "text", 0⟩, ⟨"b", .str "q", "text", 0⟩,
            ⟨"c", .str "r", "text", 0⟩], 2⟩
      ∧ ¬ ((3 : Int) ≤ 2) :=
  ⟨rfl, by decide⟩

/-- C1 amended: with a nonnegative capacity, `add_item` preserves the
bound `len(entries) <= max_items` when it held before (and any call
that actually inserts establishes it outright, even from an oversized
state), and `clear_history` trivially satisfies it; but the state
produced by `load_config` is not covered — a loaded document can
exceed its own `max_items` (see the counterexample). -/
theorem capacity_bound_after_mutations :
    (∀ (mtime : Int) (st : ManagerState) (c : PyVal) (t : String),
        0 ≤ st.max_items → (st.history.length : Int) ≤ st.max_items →
        ((add_item mtime st c t).1.history.length : Int) ≤ (add_item mtime st c t).1.max_items)
    ∧ (∀ (mtime : Int) (st : ManagerState) (c : PyVal) (t : String) (it : ClipboardItem),
        0 ≤ st.max_items → (add_item mtime st c t).2 = .Inserted it →
        ((add_item mtime st c t).1.history.length : Int) ≤ st.max_items)
    ∧ (∀ st : ManagerState, 0 ≤ st.max_items →
        ((clear_history st).history.length : Int) ≤ (clear_history st).max_items) := by
  refine ⟨?_, ?_, ?_⟩
  · intro mtime st c t hcap hbound
    by_cases hany : st.history.any (fun e => e.id == (ClipboardItem.init c t mtime).id) = true
    · rw [add_item_dup mtime st c t hany]
      exact hbound
    · rw [add_item_absent mtime st c t hcap (Bool.eq_false_iff.mpr hany)]
      simp only [List.length_take, List.length_cons]
      omega
  · intro mtime st c t it hcap hins
    by_cases hany : st.history.any (fun e => e.id == (ClipboardItem.init c t mtime).id) = true
    · rw [add_item_dup mtime st c t hany] at hins
      simp at hins
    · rw [add_item_absent mtime st c t hcap (Bool.eq_false_iff.mpr hany)]
      simp only [List.length_take, List.length_cons]
      omega
  · intro st hcap
    simp only [clear_history, List.length_nil]
    omega

/-- Witness for C1: the bound holds after an insert into an empty
2-capacity store, after an insert reported as such, and after a clear. -/
theorem capacity_bound_after_mutations_witness :
    (((add_item 0 ⟨[], 2⟩ (.str "w1") "text").1.history.length : Int)
        ≤ (add_item 0 ⟨[], 2⟩ (.str "w1") "text").1.max_items)
      ∧ (((add_item 0 ⟨[], 2⟩ (.str "w1") "text").1.history.length : Int) ≤ 2)
      ∧ (((clear_history ⟨[ClipboardItem.init (.str "w1") "text" 0], 2⟩).history.length : Int)
          ≤ (clear_history ⟨[ClipboardItem.init (.str "w1") "text" 0], 2⟩).max_items) :=
  ⟨capacity_bound_after_mutations.1 0 ⟨[], 2⟩ (.str "w1") "text" (by decide) (by decide),
   capacity_bound_after_mutations.2.1 0 ⟨[], 2⟩ (.str "w1") "text"
      (ClipboardItem.init (.str "w1") "text" 0) (by decide) (by decide),
   capacity_bound_after_mutations.2.2 ⟨[ClipboardItem.init (.str "w1") "text" 0], 2⟩
      (by decide)⟩

/-- C2: a payload whose fingerprint already occurs anywhere in the
history makes `add_item` return with `Duplicate` and the state exactly
unchanged (no move-to-front), and inserting the same payload twice in
a row from a state that holds neither its fingerprint nor its content
leaves exactly one entry with that content, the second call reporting
`Duplicate`. -/
theorem add_item_duplicate_is_noop :
    (∀ (mtime : Int) (st : ManagerState) (c : PyVal) (t : String),
        (∃ e ∈ st.history, e.id = (ClipboardItem.init c t mtime).id) →
        add_item mtime st c t = (st, .Duplicate))
    ∧ (∀ (mtime : Int) (st : ManagerState) (c : PyVal) (t : String),
        1 ≤ st.max_items →
        (∀ e ∈ st.history, e.id ≠ (ClipboardItem.init c t mtime).id ∧ e.content ≠ c) →
        add_item mtime (add_item mtime st c t).1 c t
            = ((add_item mtime st c t).1, .Duplicate)
          ∧ (add_item mtime st c t).1.history.countP (fun e => e.content == c) = 1) := by
  constructor
  · intro mtime st c t h
    exact add_item_dup mtime st c t ((any_id_iff _ _).mpr h)
  · intro mtime st c t hcap habs
    have hany : st.history.any (fun e => e.id == (ClipboardItem.init c t mtime).id) = false := by
      rw [Bool.eq_false_iff]
      intro hx
      rw [any_id_iff] at hx
      obtain ⟨e, he, heq⟩ := hx
      exact (habs e he).1 heq
    rw [add_item_absent mtime st c t (by omega) hany]
    obtain ⟨n, hn⟩ : ∃ n, st.max_items.toNat = n + 1 := ⟨st.max_items.toNat - 1, by omega⟩
    rw [hn, List.take_succ_cons]
    refine ⟨add_item_dup _ _ _ _ ?_, ?_⟩
    · rw [any_id_iff]
      exact ⟨_, List.mem_cons_self _ _, rfl⟩
    · rw [List.countP_cons]
      have hz : (st.history.take n).countP (fun e => e.content == c) = 0 := by
        rw [List.countP_eq_zero]
        intro e he
        have hmem : e ∈ st.history := List.take_subset _ _ he
        simp only [beq_iff_eq]
        exact (habs e hmem).2
      rw [hz]
      simp [ClipboardItem.init]

/-- Witness for C2: a store already holding `d` rejects `d` again
unchanged; two inserts of `d2` into an empty store leave one entry. -/
theorem add_item_duplicate_is_noop_witness :
    add_item 0 ⟨[ClipboardItem.init (.str "d") "text" 0], 10⟩ (.str "d") "text"
        = (⟨[ClipboardItem.init (.str "d") "text" 0], 10⟩, .Duplicate)
      ∧ (add_item 0 (add_item 0 ⟨[], 10⟩ (.str "d2") "text").1 (.str "d2") "text"
            = ((add_item 0 ⟨[], 10⟩ (.str "d2") "text").1, .Duplicate)
          ∧ (add_item 0 ⟨[], 10⟩ (.str "d2") "text").1.history.countP
              (fun e => e.content == PyVal.str "d2") = 1) :=
  ⟨add_item_duplicate_is_noop.1 0 ⟨[ClipboardItem.init (.str "d") "text" 0], 10⟩
      (.str "d") "text" ⟨ClipboardItem.init (.str "d") "text" 0, by simp, rfl⟩,
   add_item_duplicate_is_noop.2 0 ⟨[], 10⟩ (.str "d2") "text" (by decide)
      (fun e he => absurd he (List.not_mem_nil e))⟩

/-- C5 counterexample: the code has no `setCapacity`; the only way a
capacity change arrives is `load_config`, and it accepts `max_items
= 0` with no `InvalidCapacity` error, replacing the store; with
`max_items = 1` under two entries it also performs no truncation. -/
theorem load_config_accepts_nonpositive_capacity :
    load_config 0 (some ⟨[⟨"a", .str "u", "text", some 0⟩], some 0⟩) ⟨[], 10⟩
        = .ok ⟨[⟨"a", .str "u", "text", 0⟩], 0⟩
      ∧ load_config 0 (some ⟨[⟨"a", .str "u", "text", some 0⟩,
            ⟨"b", .str "v", "text", some 0⟩], some 1⟩) ⟨[], 10⟩
        = .ok ⟨[⟨"a", .str "u", "text", 0⟩, ⟨"b", .str "v", "text", 0⟩], 1⟩ :=
  ⟨rfl, rfl⟩

/-- C5 amended: capacity changes are unvalidated and truncation is
lazy: a successful `load_config` installs whatever `max_items` the
document holds (default 10) together with the full decoded history,
however long; a history longer than the capacity is only cut back — to
exactly the capacity, from the tail, survivors in order — by the next
`add_item` that actually inserts. -/
theorem capacity_changes_unvalidated_and_lazy :
    (∀ (mtime : Int) (doc : Document) (st0 st : ManagerState),
        load_config mtime (some doc) st0 = .ok st →
        st.max_items = doc.max_items.getD 10 ∧ st.history.length = doc.history.length)
    ∧ (∀ (mtime : Int) (st : ManagerState) (c : PyVal) (t : String),
        0 ≤ st.max_items → st.max_items < (st.history.length : Int) →
        (add_item mtime st c t).2 ≠ .Duplicate →
        (add_item mtime st c t).1.history
            = (ClipboardItem.init c t mtime :: st.history).take st.max_items.toNat
          ∧ ((add_item mtime st c t).1.history.length : Int) = st.max_items) := by
  constructor
  · intro mtime doc st0 st h
    simp only [load_config] at h
    cases hm : mapOption (ClipboardItem.from_dict mtime) doc.history with
    | none => rw [hm] at h; simp at h
    | some items =>
        rw [hm] at h
        simp only [Except.ok.injEq] at h
        rw [← h]
        exact ⟨rfl, mapOption_length _ _ _ hm⟩
  · intro mtime st c t hcap hover hnd
    by_cases hany : st.history.any (fun e => e.id == (ClipboardItem.init c t mtime).id) = true
    · rw [add_item_dup mtime st c t hany] at hnd
      exact absurd rfl hnd
    · rw [add_item_absent mtime st c t hcap (Bool.eq_false_iff.mpr hany)]
      refine ⟨rfl, ?_⟩
      simp only [List.length_take, List.length_cons]
      omega

/-- Witness for C5: a loaded document installs capacity 1 under two
entries; the next insert cuts the history to exactly one entry. -/
theorem capacity_changes_unvalidated_and_lazy_witness :
    ((⟨[⟨"a", .str "u", "text", 0⟩, ⟨"b", .str "v", "text", 0⟩], 1⟩ : ManagerState).max_items
        = ((some 1 : Option Int).getD 10)
      ∧ (⟨[⟨"a", .str "u", "text", 0⟩, ⟨"b", .str "v", "text", 0⟩], 1⟩
            : ManagerState).history.length
        = [(⟨"a", .str "u", "text", some 0⟩ : EntryRecord),
           ⟨"b", .str "v", "text", some 0⟩].length)
      ∧ ((add_item 0 ⟨[ClipboardItem.init (.str "k1") "text" 0,
              ClipboardItem.init (.str "k2") "text" 0], 1⟩ (.str "k3") "text").1.history
            = (ClipboardItem.init (.str "k3") "text" 0
                :: [ClipboardItem.init (.str "k1") "text" 0,
                    ClipboardItem.init (.str "k2") "text" 0]).take (1 : Int).toNat
          ∧ (((add_item 0 ⟨[ClipboardItem.init (.str "k1") "text" 0,
                ClipboardItem.init (.str "k2") "text" 0], 1⟩
                (.str "k3") "text").1.history.length : Int) = 1)) :=
  ⟨capacity_changes_unvalidated_and_lazy.1 0
      ⟨[⟨"a", .str "u", "text", some 0⟩, ⟨"b", .str "v", "text", some 0⟩], some 1⟩
      ⟨[], 10⟩ ⟨[⟨"a", .str "u", "text", 0⟩, ⟨"b", .str "v", "text", 0⟩], 1⟩ rfl,
   capacity_changes_unvalidated_and_lazy.2 0
      ⟨[ClipboardItem.init (.str "k1") "text" 0, ClipboardItem.init (.str "k2") "text" 0], 1⟩
      (.str "k3") "text" (by decide) (by decide) (by decide)⟩

/-- C3: an absent fingerprint is inserted at index 0, the history
becoming the new item consed on the old list cut to capacity (so the
tail is evicted exactly when the bound would be exceeded); and folding
any sequence of pairwise-distinct payloads into an empty store leaves
precisely the newest `capacity` of them, most recent first. -/
theorem add_item_front_insert_and_eviction :
    (∀ (mtime : Int) (st : ManagerState) (c : PyVal) (t : String),
        1 ≤ st.max_items →
        st.history.any (fun e => e.id == (ClipboardItem.init c t mtime).id) = false →
        (add_item mtime st c t).2 = .Inserted (ClipboardItem.init c t mtime)
          ∧ (add_item mtime st c t).1.history
              = (ClipboardItem.init c t mtime :: st.history).take st.max_items.toNat
          ∧ (add_item mtime st c t).1.history.head? = some (ClipboardItem.init c t mtime))
    ∧ (∀ (mtime cap : Int) (ps : List (PyVal × String)),
        1 ≤ cap →
        ps.Pairwise (fun p q =>
          (ClipboardItem.init p.1 p.2 mtime).id ≠ (ClipboardItem.init q.1 q.2 mtime).id) →
        (add_all mtime ⟨[], cap⟩ ps).history
          = (ps.reverse.map (fun p => ClipboardItem.init p.1 p.2 mtime)).take cap.toNat) := by
  constructor
  · intro mtime st c t hcap hany
    rw [add_item_absent mtime st c t (by omega) hany]
    refine ⟨rfl, rfl, ?_⟩
    obtain ⟨n, hn⟩ : ∃ n, st.max_items.toNat = n + 1 := ⟨st.max_items.toNat - 1, by omega⟩
    show ((ClipboardItem.init c t mtime :: st.history).take st.max_items.toNat).head? = _
    rw [hn, List.take_succ_cons]
    rfl
  · intro mtime cap ps hcap hpw
    induction ps using List.reverseRecOn with
    | nil => simp [add_all]
    | append_singleton qs p ih =>
        rw [List.pairwise_append] at hpw
        obtain ⟨hqs, _, hcross⟩ := hpw
        have hist_eq := ih hqs
        have hsplit : add_all mtime ⟨[], cap⟩ (qs ++ [p])
            = (add_item mtime (add_all mtime ⟨[], cap⟩ qs) p.1 p.2).1 := by
          simp [add_all, List.foldl_append]
        rw [hsplit]
        have hmax : (add_all mtime ⟨[], cap⟩ qs).max_items = cap :=
          add_all_max mtime qs ⟨[], cap⟩
        have hanyf : (add_all mtime ⟨[], cap⟩ qs).history.any
            (fun e => e.id == (ClipboardItem.init p.1 p.2 mtime).id) = false := by
          rw [Bool.eq_false_iff]
          intro hx
          rw [any_id_iff] at hx
          obtain ⟨e, he, heq⟩ := hx
          rw [hist_eq] at he
          have he2 := List.take_subset _ _ he
          rw [List.mem_map] at he2
          obtain ⟨q, hq, rfl⟩ := he2
          rw [List.mem_reverse] at hq
          exact hcross q hq p (by simp) heq
        rw [add_item_absent mtime _ p.1 p.2 (by omega) hanyf]
        show (ClipboardItem.init p.1 p.2 mtime :: (add_all mtime ⟨[], cap⟩ qs).history).take
            (add_all mtime ⟨[], cap⟩ qs).max_items.toNat = _
        rw [hmax, hist_eq, List.reverse_append, List.reverse_singleton,
          List.singleton_append, List.map_cons]
        obtain ⟨n, hn⟩ : ∃ n, cap.toNat = n + 1 := ⟨cap.toNat - 1, by omega⟩
        rw [hn, List.take_succ_cons, List.take_succ_cons, List.take_take]
        have hmin : n ⊓ (n + 1) = n := inf_eq_left.mpr (by omega)
        rw [hmin]

/-- Witness for C3: a fresh insert into an empty store, and two
distinct inserts into a 1-capacity store evicting the older one. -/
theorem add_item_front_insert_and_eviction_witness :
    ((add_item 0 ⟨[], 10⟩ (.str "w2") "text").2
          = .Inserted (ClipboardItem.init (.str "w2") "text" 0)
        ∧ (add_item 0 ⟨[], 10⟩ (.str "w2") "text").1.history
            = (ClipboardItem.init (.str "w2") "text" 0 :: ([] : List ClipboardItem)).take
                (10 : Int).toNat
        ∧ (add_item 0 ⟨[], 10⟩ (.str "w2") "text").1.history.head?
            = some (ClipboardItem.init (.str "w2") "text" 0))
      ∧ (add_all 0 ⟨[], 1⟩ [(PyVal.str "w2", "text"), (PyVal.str "w3", "text")]).history
          = ([(PyVal.str "w2", "text"), (PyVal.str "w3", "text")].reverse.map
              (fun p => ClipboardItem.init p.1 p.2 0)).take (1 : Int).toNat :=
  ⟨add_item_front_insert_and_eviction.1 0 ⟨[], 10⟩ (.str "w2") "text" (by decide) rfl,
   add_item_front_insert_and_eviction.2 0 1 [(PyVal.str "w2", "text"), (PyVal.str "w3", "text")]
      (by decide) (by decide)⟩

/-- C4: for any store whose items are well-typed (text entries hold a
string, image entries hold genuine bytes), `save_config` succeeds and
`load_config` of the produced document rebuilds exactly the same
entries — same id, kind, payload bytes (base64 inverted byte for
byte), timestamp and order — and the same capacity. -/
theorem save_load_roundtrip (mtime : Int) (st st0 : ManagerState)
    (h : ∀ it ∈ st.history, wf it) :
    ∃ doc, save_config st = some doc
      ∧ load_config mtime (some doc) st0 = .ok ⟨st.history, st.max_items⟩ := by
  obtain ⟨rs, h1, h2⟩ := mapOption_to_from mtime st.history h
  refine ⟨⟨rs, some st.max_items⟩, ?_, ?_⟩
  · simp [save_config, h1]
  · simp [load_config, h2]

/-- Witness for C4: a concrete store with one text and one image entry
round-trips through the persisted document. -/
theorem save_load_roundtrip_witness :
    ∃ doc, save_config ⟨[ClipboardItem.mk "t1" (.str "hi") "text" 5,
          ClipboardItem.mk "i1" (.bytes [0, 255, 10]) "image" 7], 4⟩ = some doc
      ∧ load_config 0 (some doc) ⟨[], 10⟩
          = .ok ⟨[ClipboardItem.mk "t1" (.str "hi") "text" 5,
              ClipboardItem.mk "i1" (.bytes [0, 255, 10]) "image" 7], 4⟩ :=
  save_load_roundtrip 0
    ⟨[ClipboardItem.mk "t1" (.str "hi") "text" 5,
      ClipboardItem.mk "i1" (.bytes [0, 255, 10]) "image" 7], 4⟩ ⟨[], 10⟩
    (by
      intro it hit
      simp only [List.mem_cons, List.not_mem_nil, or_false] at hit
      rcases hit with rfl | rfl
      · exact ⟨fun hx => absurd hx (by decide), fun _ => ⟨"hi", rfl⟩⟩
      · exact ⟨fun _ => ⟨[0, 255, 10], rfl, by decide⟩, fun hx => absurd rfl hx⟩)

/-- C10: the fingerprint hashes `str(content)` only, never the kind:
the text payload spelled like the `repr` of the bytes `b\x00` has the
same id as the image payload of those bytes, so inserting the image
right after the text comes back `Duplicate` and leaves the single
text entry despite the differing kinds. -/
theorem fingerprint_ignores_kind :
    (ClipboardItem.init
        (.str (String.mk [Char.ofNat 98, Char.ofNat 39, Char.ofNat 92, Char.ofNat 120,
          Char.ofNat 48, Char.ofNat 48, Char.ofNat 39])) "text" 0).id
        = (ClipboardItem.init (.bytes [0]) "image" 0).id
      ∧ add_item 0
          (add_item 0 ⟨[], 10⟩
            (.str (String.mk [Char.ofNat 98, Char.ofNat 39, Char.ofNat 92, Char.ofNat 120,
              Char.ofNat 48, Char.ofNat 48, Char.ofNat 39])) "text").1
          (.bytes [0]) "image"
        = ((add_item 0 ⟨[], 10⟩
            (.str (String.mk [Char.ofNat 98, Char.ofNat 39, Char.ofNat 92, Char.ofNat 120,
              Char.ofNat 48, Char.ofNat 48, Char.ofNat 39])) "text").1, .Duplicate)
      ∧ (add_item 0 ⟨[], 10⟩
          (.str (String.mk [Char.ofNat 98, Char.ofNat 39, Char.ofNat 92, Char.ofNat 120,
            Char.ofNat 48, Char.ofNat 48, Char.ofNat 39])) "text").1.history.length = 1 := by
  refine ⟨by decide, by decide, by decide⟩
